import Mathlib

/-!
# tor-scraper: a shallow embedding of `main.go`

The development follows the source file function by function.

* Go strings are modelled by Lean `String` (sequences of Unicode code points,
  i.e. valid UTF-8 text); byte slices by `List UInt8`.
* `int32` / `int64` counters are modelled by `Int` together with explicit
  two's-complement wrap-around (`wrapInt32`, `wrapInt64`).
* Everything the program obtains from the outside world (the URL parser, the
  HTTP client, the file system) is passed in explicitly as the result that the
  corresponding library call returned.
* The goroutine scheduling of `main` is modelled as an interleaving transition
  system over explicit program counters.
-/

namespace TorScraper

/-! ## Constants (`const (...)` block of `main.go`) -/

/-- Directory that receives the fetched pages (`outputDir`). -/
def outputDir : String := "scraped"

/-- Capacity of the semaphore channel (`maxConcurrent`). -/
def maxConcurrent : Nat := 5

/-- Value of `http.StatusOK`. -/
def StatusOK : Int := 200

/-! ## The pieces of package `strings` / `unicode` used by the source -/

/-- Go `unicode.IsSpace`: the Latin-1 white space characters
`'\t' '\n' '\v' '\f' '\r' ' '`, U+0085, U+00A0, and outside Latin-1 the code
points with the `White_Space` property. -/
def isSpace (c : Char) : Bool :=
  let n := c.toNat
  if n ≤ 0xFF then
    n == 0x09 || n == 0x0A || n == 0x0B || n == 0x0C || n == 0x0D || n == 0x20
      || n == 0x85 || n == 0xA0
  else
    n == 0x1680 || (0x2000 ≤ n && n ≤ 0x200A) || n == 0x2028 || n == 0x2029
      || n == 0x202F || n == 0x205F || n == 0x3000

/-- Go `strings.TrimLeftFunc(s, unicode.IsSpace)` on the code points. -/
def trimLeftSpace (l : List Char) : List Char := l.dropWhile isSpace

/-- Go `strings.TrimRightFunc(s, unicode.IsSpace)` on the code points. -/
def trimRightSpace (l : List Char) : List Char := (l.reverse.dropWhile isSpace).reverse

/-- Go `strings.TrimSpace`: all leading and trailing white space removed. -/
def TrimSpace (s : String) : String := ⟨trimRightSpace (trimLeftSpace s.data)⟩

/-- Go `strings.HasPrefix(s, p)`. -/
def HasPrefix (s p : String) : Bool := p.data.isPrefixOf s.data

/-- Worker of `ReplaceAll`: walks the input from left to right; `skip` counts the
remaining characters of an occurrence of `old` that has just been replaced. -/
def replaceAllAux (old new : List Char) : Nat → List Char → List Char
  | _, [] => if old.isEmpty then new else []
  | skip + 1, _ :: cs => replaceAllAux old new skip cs
  | 0, c :: cs =>
    if old.isEmpty then new ++ c :: replaceAllAux old new 0 cs
    else if old.isPrefixOf (c :: cs) then new ++ replaceAllAux old new (old.length - 1) cs
    else c :: replaceAllAux old new 0 cs

/-- Go `strings.ReplaceAll(s, old, new)`: every non-overlapping occurrence of
`old`, found from left to right, is replaced by `new`. -/
def ReplaceAll (s old new : String) : String := ⟨replaceAllAux old.data new.data 0 s.data⟩

/-! ## Reading the target list (`readTargets`, `readTargetsAsText`) -/

/-- Body of the `for` loops of `readTargetsAsText` (lines 191-203) and of the
YAML branch of `readTargets` (lines 162-169): `none` stands for `continue`,
`some t` for `targets = append(targets, t)`. -/
def normalizeLine (raw : String) : Option String :=
  let line := TrimSpace raw
  if line == "" || HasPrefix line "#" then none
  else if !HasPrefix line "http" then some ("http://" ++ line)
  else some line

/-- Loop `for scanner.Scan() { ... }` of `readTargetsAsText`, run over the lines
the scanner yields, starting from the slice `targets`. -/
def scanLoop (targets : List String) : List String → List String
  | [] => targets
  | raw :: rest =>
    match normalizeLine raw with
    | none => scanLoop targets rest
    | some t => scanLoop (targets ++ [t]) rest

/-- What the file system and the YAML decoder return for the target file. -/
structure TargetFile where
  /-- error of `os.Open(filename)`, if any -/
  openErr : Option String
  /-- value of `filepath.Ext(filename)` -/
  ext : String
  /-- error of `os.ReadFile(filename)`, if any -/
  readErr : Option String
  /-- result of `yaml.Unmarshal(data, &yamlTargets)` -/
  yaml : Except String (List String)
  /-- lines yielded by `scanner.Scan()` / `scanner.Text()` -/
  lines : List String
  /-- value of `scanner.Err()` -/
  scanErr : Option String

/-- Go `readTargetsAsText`: returns `(targets, err)`. -/
def readTargetsAsText (f : TargetFile) : List String × Option String :=
  match f.openErr with
  | some e => ([], some e)
  | none => (scanLoop [] f.lines, f.scanErr)

/-- Go `readTargets`: returns `(targets, err)`. -/
def readTargets (f : TargetFile) : List String × Option String :=
  match f.openErr with
  | some e => ([], some e)
  | none =>
    if f.ext == ".yaml" || f.ext == ".yml" then
      match f.readErr with
      | some e => ([], some e)
      | none =>
        match f.yaml with
        | .error _ => readTargetsAsText f
        | .ok yamlTargets => (scanLoop [] yamlTargets, none)
    else readTargetsAsText f

/-- A plain-text target file with the given lines and no I/O error. -/
def textFile (lines : List String) : TargetFile :=
  { openErr := none, ext := ".txt", readErr := none, yaml := .error "not a list",
    lines := lines, scanErr := none }

/-- A YAML target file holding the given list of strings and no I/O error. -/
def yamlFile (entries : List String) : TargetFile :=
  { openErr := none, ext := ".yaml", readErr := none, yaml := .ok entries,
    lines := [], scanErr := none }

/-! ## Machine integers -/

/-- Two's-complement reduction of an integer to the range of Go `int32`. -/
def wrapInt32 (x : Int) : Int := (x + 2147483648) % 4294967296 - 2147483648

/-- Two's-complement reduction of an integer to the range of Go `int64`. -/
def wrapInt64 (x : Int) : Int :=
  (x + 9223372036854775808) % 18446744073709551616 - 9223372036854775808

/-- Go `atomic.AddInt32(&x, delta)`: the new value of `x`. -/
def AddInt32 (x delta : Int) : Int := wrapInt32 (x + delta)

/-- Go `atomic.AddInt64(&x, delta)`: the new value of `x`. -/
def AddInt64 (x delta : Int) : Int := wrapInt64 (x + delta)

/-! ## Statistics (`type Stats struct`) -/

/-- Go `Stats`; `StartTime` is a wall-clock value and carries no logic. -/
structure Stats where
  Total : Int
  Success : Int
  Failed : Int
  Warnings : Int
  TotalBytes : Int
  deriving DecidableEq, Repr

/-- Initialisation `stats := &Stats{Total: int32(len(targets)), ...}` in `main`. -/
def initStats (targets : List String) : Stats :=
  { Total := wrapInt32 targets.length, Success := 0, Failed := 0, Warnings := 0,
    TotalBytes := 0 }

/-! ## The outside world as seen by one `scanTarget` call -/

/-- The fields of `*url.URL` that matter here; the program reads only `Host`. -/
structure URL where
  Scheme : String
  Host : String
  Path : String
  deriving DecidableEq, Repr

/-- The part of `*http.Response` that the program reads. -/
structure Response where
  StatusCode : Int
  /-- result of `io.ReadAll(resp.Body)` -/
  Body : Except String (List UInt8)

/-- Results of the library calls made while one target is processed. -/
structure Env where
  /-- result of `url.Parse(rawURL)` -/
  parse : Except String URL
  /-- error of `http.NewRequest("GET", rawURL, nil)`, if any -/
  requestErr : Option String
  /-- result of `client.Do(req)` -/
  resp : Except String Response
  /-- error of `os.WriteFile(filepath, body, 0644)`, if any -/
  writeErr : Option String

/-- One call of `os.WriteFile`: path, data and whether it succeeded. -/
structure WriteCall where
  path : String
  data : List UInt8
  ok : Bool
  deriving DecidableEq, Repr

/-- One `log.Printf` line of `scanTarget` (the elapsed time is left out). -/
inductive LogLine where
  | errInvalidURL (rawURL err : String)
  | errRequest (rawURL err : String)
  | errTransport (rawURL err : String)
  | warnStatus (rawURL : String) (status : Int)
  | errRead (rawURL err : String)
  | errWrite (rawURL err : String)
  | success (rawURL : String) (bytes : Nat) (filename : String)
  deriving DecidableEq, Repr

/-- Everything `scanTarget` can change: the shared counters, the calls of
`os.WriteFile` made so far (oldest first) and the log. -/
structure State where
  stats : Stats
  writes : List WriteCall
  log : List LogLine
  deriving DecidableEq, Repr

/-- Lines 262-263: the output path derived from the parsed URL. -/
def outputFilename (u : URL) : String := ReplaceAll u.Host ":" "_" ++ ".html"

/-- Line 263: `filepath := outputDir + "/" + filename`. -/
def outputPath (u : URL) : String := outputDir ++ "/" ++ outputFilename u

/-- Go `scanTarget(client, rawURL, stats)`; the client's behaviour for this call
is given by `env`. -/
def scanTarget (env : Env) (rawURL : String) (st : State) : State :=
  match env.parse with
  | .error err =>
    { st with log := st.log ++ [.errInvalidURL rawURL err],
              stats := { st.stats with Failed := AddInt32 st.stats.Failed 1 } }
  | .ok u =>
    match env.requestErr with
    | some err =>
      { st with log := st.log ++ [.errRequest rawURL err],
                stats := { st.stats with Failed := AddInt32 st.stats.Failed 1 } }
    | none =>
      match env.resp with
      | .error err =>
        { st with log := st.log ++ [.errTransport rawURL err],
                  stats := { st.stats with Failed := AddInt32 st.stats.Failed 1 } }
      | .ok resp =>
        if resp.StatusCode != StatusOK then
          { st with log := st.log ++ [.warnStatus rawURL resp.StatusCode],
                    stats := { st.stats with Warnings := AddInt32 st.stats.Warnings 1 } }
        else
          match resp.Body with
          | .error err =>
            { st with log := st.log ++ [.errRead rawURL err],
                      stats := { st.stats with Failed := AddInt32 st.stats.Failed 1 } }
          | .ok body =>
            let filename := outputFilename u
            let filepath := outputDir ++ "/" ++ filename
            match env.writeErr with
            | some err =>
              { st with writes := st.writes ++ [⟨filepath, body, false⟩],
                        log := st.log ++ [.errWrite rawURL err],
                        stats := { st.stats with Failed := AddInt32 st.stats.Failed 1 } }
            | none =>
              { writes := st.writes ++ [⟨filepath, body, true⟩],
                stats := { st.stats with
                  Success := AddInt32 st.stats.Success 1,
                  TotalBytes := AddInt64 st.stats.TotalBytes body.length },
                log := st.log ++ [.success rawURL body.length filename] }

/-- The calls `scanTarget(client, u, stats)` for the given targets, one after the
other; each target comes with the results of its library calls. -/
def scanAll : List (String × Env) → State → State
  | [], st => st
  | (u, env) :: rest, st => scanAll rest (scanTarget env u st)

/-- State of `main` just before the scheduling loop. -/
def initState (targets : List String) : State :=
  { stats := initStats targets, writes := [], log := [] }

/-- A complete sequential run over the targets with their results. -/
def runAll (jobs : List (String × Env)) : State :=
  scanAll jobs (initState (jobs.map Prod.fst))

/-- Environment of a fetch that answers with the given status and body. -/
def envStatus (host : String) (status : Int) (body : List UInt8) : Env :=
  { parse := .ok ⟨"http", host, ""⟩, requestErr := none, resp := .ok ⟨status, .ok body⟩,
    writeErr := none }

/-- Environment of a fetch whose `client.Do` fails. -/
def envTransportErr (host err : String) : Env :=
  { parse := .ok ⟨"http", host, ""⟩, requestErr := none, resp := .error err, writeErr := none }

/-! ## The scheduling loop of `main` (lines 96-108) as a transition system -/

/-- Program counter of the `main` goroutine inside the scheduling code. -/
inductive MainPc where
  /-- at the loop head: next is `wg.Add(1)` for the head of `pending`, or the
  loop exit when no target is left -/
  | add
  /-- next is `sem <- struct{}{}` -/
  | send
  /-- next is the `go func(u string) {...}(rawURL)` statement -/
  | spawn
  /-- next is `wg.Wait()` -/
  | wait
  /-- `wg.Wait()` has returned -/
  | done
  deriving DecidableEq, Repr

/-- Program counter of one worker goroutine `func(u string) {...}`. -/
inductive WorkerPc where
  /-- created by the `go` statement, nothing executed yet -/
  | start
  /-- both `defer`s registered, inside `scanTarget(client, u, stats)` -/
  | scanning
  /-- `scanTarget` has returned; next is the deferred `<-sem` -/
  | scanned
  /-- slot given back; next is the deferred `wg.Done()` -/
  | released
  /-- goroutine finished -/
  | exited
  deriving DecidableEq, Repr

/-- State of the scheduling code. -/
structure Sched where
  pc : MainPc
  /-- targets the `range` loop still has to launch (head is the current `rawURL`) -/
  pending : List String
  /-- number of values buffered in the channel `sem` -/
  sem : Nat
  /-- counter of the `sync.WaitGroup` -/
  wg : Int
  /-- worker goroutines in launch order, each with its argument `u` -/
  workers : List (String × WorkerPc)
  deriving DecidableEq, Repr

/-- Which goroutine takes the next step. -/
inductive Action where
  | main
  | worker (i : Nat)
  deriving DecidableEq, Repr

/-- State when `main` reaches the `for` loop. -/
def initSched (targets : List String) : Sched :=
  { pc := .add, pending := targets, sem := 0, wg := 0, workers := [] }

/-- One step of the `main` goroutine; `none` when it is blocked or has finished. -/
def stepMain (s : Sched) : Option Sched :=
  match s.pc with
  | .add =>
    match s.pending with
    | [] => some { s with pc := .wait }
    | _ :: _ => some { s with wg := s.wg + 1, pc := .send }
  | .send =>
    if s.sem < maxConcurrent then some { s with sem := s.sem + 1, pc := .spawn } else none
  | .spawn =>
    match s.pending with
    | [] => none
    | u :: rest => some { s with workers := s.workers ++ [(u, .start)], pending := rest, pc := .add }
  | .wait => if s.wg = 0 then some { s with pc := .done } else none
  | .done => none

/-- One step of worker `i`; `none` when it does not exist, is blocked or has
finished. -/
def stepWorker (s : Sched) (i : Nat) : Option Sched :=
  match s.workers[i]? with
  | none => none
  | some (u, .start) => some { s with workers := s.workers.set i (u, .scanning) }
  | some (u, .scanning) => some { s with workers := s.workers.set i (u, .scanned) }
  | some (u, .scanned) =>
    if 0 < s.sem then some { s with sem := s.sem - 1, workers := s.workers.set i (u, .released) }
    else none
  | some (u, .released) => some { s with wg := s.wg - 1, workers := s.workers.set i (u, .exited) }
  | some (_, .exited) => none

/-- One step of the chosen goroutine. -/
def step (s : Sched) : Action → Option Sched
  | .main => stepMain s
  | .worker i => stepWorker s i

/-- Runs a schedule: the goroutines step in the given order; a goroutine that
cannot step when chosen leaves the state as it is. -/
def exec (s : Sched) : List Action → Sched
  | [] => s
  | a :: rest =>
    match step s a with
    | some s' => exec s' rest
    | none => exec s rest

/-- A worker occupies a semaphore slot from its launch until its deferred
`<-sem`; this covers the whole execution of its `scanTarget` call. -/
def WorkerPc.active : WorkerPc → Bool
  | .start | .scanning | .scanned => true
  | .released | .exited => false

/-- Number of workers that have been started and have not yet given back their
slot. -/
def activeWorkers (s : Sched) : Nat := s.workers.countP (fun w => w.2.active)

/-- Number of workers whose `scanTarget` call is in progress. -/
def scanningWorkers (s : Sched) : Nat := s.workers.countP (fun w => w.2 == .scanning)

/-- Number of worker goroutines that have not yet terminated; it includes those
that have given their slot back and have only the deferred `wg.Done()` left. -/
def liveWorkers (s : Sched) : Nat := s.workers.countP (fun w => w.2 != .exited)

/-- The semaphore invariant: the channel holds one value per worker that has been
launched and has not yet run its deferred receive, plus one while `main` stands
between the send and the `go` statement; and it never holds more than its
capacity. -/
def SchedInv (s : Sched) : Prop :=
  s.sem = activeWorkers s + (if s.pc = .spawn then 1 else 0) ∧ s.sem ≤ maxConcurrent

/-- Three targets: one fetched with status 200, one answered with 404, one whose
connection times out. -/
def sampleJobs : List (String × Env) :=
  [("http://a.onion", envStatus "a.onion" 200 [1, 2, 3]),
   ("http://b.onion:81/x", envStatus "b.onion:81" 404 [1]),
   ("http://c.onion", envTransportErr "c.onion" "timeout")]

/-- Total length of the bodies handed to the `os.WriteFile` calls that succeeded. -/
def bytesWritten (ws : List WriteCall) : Nat :=
  ((ws.filter (fun w => w.ok)).map (fun w => w.data.length)).sum

/-! ## The target list as the specification words it -/

/-- Specification wording: an entry contributes a target when, after trimming,
it is non-empty and its first character is not `#`. -/
def specKeeps (raw : String) : Bool :=
  TrimSpace raw != "" && (TrimSpace raw).data.head? != some '#'

/-- Specification wording: the normalised image of an entry is the trimmed entry,
with `http://` put in front unless it begins with `http`. -/
def specNormalised (raw : String) : String :=
  if HasPrefix (TrimSpace raw) "http" then TrimSpace raw else "http://" ++ TrimSpace raw

/-- Specification wording: the normalised images, in input order, of the entries
that are kept. -/
def specTargets (lines : List String) : List String :=
  (lines.filter specKeeps).map specNormalised

/-! ## Facts about the string helpers -/

theorem trimLeftSpace_eq_self {l : List Char}
    (h : ∀ c, l.head? = some c → isSpace c = false) : trimLeftSpace l = l := by
  cases l with
  | nil => rfl
  | cons a t => simp [trimLeftSpace, List.dropWhile, h a]

theorem trimRightSpace_eq_self {l : List Char}
    (h : ∀ c, l.getLast? = some c → isSpace c = false) : trimRightSpace l = l := by
  have hr : trimLeftSpace l.reverse = l.reverse := by
    apply trimLeftSpace_eq_self
    intro c hc
    exact h c (by simpa [List.head?_reverse] using hc)
  unfold trimRightSpace
  unfold trimLeftSpace at hr
  rw [hr, List.reverse_reverse]

theorem head?_trimLeftSpace (l : List Char) (c : Char)
    (h : (trimLeftSpace l).head? = some c) : isSpace c = false := by
  induction l with
  | nil => simp [trimLeftSpace] at h
  | cons a t ih =>
    unfold trimLeftSpace at h ih
    rw [List.dropWhile_cons] at h
    by_cases ha : isSpace a = true
    · rw [if_pos ha] at h
      exact ih h
    · rw [if_neg ha] at h
      simp only [List.head?_cons, Option.some.injEq] at h
      subst h
      simpa using ha

theorem getLast?_trimRightSpace (l : List Char) (c : Char)
    (h : (trimRightSpace l).getLast? = some c) : isSpace c = false := by
  unfold trimRightSpace at h
  rw [List.getLast?_reverse] at h
  exact head?_trimLeftSpace l.reverse c h

theorem trimRightSpace_prefix (l : List Char) : trimRightSpace l <+: l := by
  have hs : l.reverse.dropWhile isSpace <:+ l.reverse := List.dropWhile_suffix _
  have := List.reverse_prefix.mpr hs
  simpa [trimRightSpace] using this

theorem head?_trimRightSpace (l : List Char) (c : Char)
    (h : (trimRightSpace l).head? = some c) : l.head? = some c := by
  obtain ⟨t, ht⟩ := trimRightSpace_prefix l
  cases hr : trimRightSpace l with
  | nil => simp [hr] at h
  | cons a r =>
    rw [hr] at h ht
    rw [← ht]
    simpa using h

/-- The code points of a trimmed string neither start nor end with white space. -/
theorem trim_head_last (l : List Char) :
    (∀ c, (trimRightSpace (trimLeftSpace l)).head? = some c → isSpace c = false) ∧
    (∀ c, (trimRightSpace (trimLeftSpace l)).getLast? = some c → isSpace c = false) :=
  ⟨fun c hc => head?_trimLeftSpace l c (head?_trimRightSpace _ c hc),
   fun c hc => getLast?_trimRightSpace _ c hc⟩

/-- A list that neither starts nor ends with white space is left alone by trimming. -/
theorem trim_eq_self {l : List Char}
    (hh : ∀ c, l.head? = some c → isSpace c = false)
    (hl : ∀ c, l.getLast? = some c → isSpace c = false) :
    trimRightSpace (trimLeftSpace l) = l := by
  rw [trimLeftSpace_eq_self hh, trimRightSpace_eq_self hl]

/-- Go `strings.TrimSpace` is idempotent. -/
theorem TrimSpace_idem (s : String) : TrimSpace (TrimSpace s) = TrimSpace s := by
  have := trim_head_last s.data
  simp only [TrimSpace]
  rw [trim_eq_self this.1 this.2]

/-- With the one-character pattern `":"` and replacement `"_"`, `ReplaceAll` maps
every colon to an underscore and keeps every other character. -/
theorem replaceAllAux_colon (l : List Char) :
    replaceAllAux [':'] ['_'] 0 l = l.map (fun c => if c = ':' then '_' else c) := by
  induction l with
  | nil => rfl
  | cons a t ih =>
    by_cases ha : a = ':'
    · subst ha
      simp [replaceAllAux, ih]
    · have h2 : ¬ (':' = a) := fun h => ha h.symm
      simp [replaceAllAux, ih, ha, h2]

theorem HasPrefix_hash (s : String) : HasPrefix s "#" = (s.data.head? == some '#') := by
  cases hs : s.data with
  | nil => simp [HasPrefix, hs]
  | cons a t =>
    have h1 : ("#" : String).data = ['#'] := rfl
    by_cases ha : a = '#'
    · subst ha
      simp [HasPrefix, hs, h1, List.isPrefixOf]
    · have h2 : ¬ ('#' = a) := fun h => ha h.symm
      simp [HasPrefix, hs, h1, List.isPrefixOf, ha, h2]

/-- The loop body agrees with the specification wording. -/
theorem normalizeLine_eq_spec (raw : String) :
    normalizeLine raw = if specKeeps raw then some (specNormalised raw) else none := by
  unfold normalizeLine specKeeps specNormalised
  simp only [HasPrefix_hash]
  by_cases h1 : TrimSpace raw = ""
  · simp [h1]
  · by_cases h2 : (TrimSpace raw).data.head? = some '#'
    · simp [h1, h2]
    · by_cases h3 : HasPrefix (TrimSpace raw) "http" = true
      · simp [h1, h2, h3]
      · simp [h1, h2, h3]

theorem scanLoop_eq_spec (acc lines : List String) :
    scanLoop acc lines = acc ++ specTargets lines := by
  induction lines generalizing acc with
  | nil => simp [scanLoop, specTargets]
  | cons raw rest ih =>
    unfold scanLoop
    rw [normalizeLine_eq_spec]
    by_cases hk : specKeeps raw = true
    · simp [hk, ih, specTargets]
    · simp [hk, ih, specTargets]

/-- A trimmed, non-empty string stays as it is when `http://` is put in front and
the result is trimmed again. -/
theorem TrimSpace_http_append (s : String) (hs : TrimSpace s = s) (hne : s ≠ "") :
    TrimSpace ("http://" ++ s) = "http://" ++ s := by
  have hd : trimRightSpace (trimLeftSpace s.data) = s.data := congrArg String.data hs
  have hprop := trim_head_last s.data
  rw [hd] at hprop
  have hnil : s.data ≠ [] := fun h => hne (String.ext h)
  have h7 : ("http://" : String).data = ['h', 't', 't', 'p', ':', '/', '/'] := rfl
  apply String.ext
  show trimRightSpace (trimLeftSpace ("http://" ++ s).data) = ("http://" ++ s).data
  rw [String.data_append, h7]
  apply trim_eq_self
  · intro c hc
    simp only [List.cons_append, List.head?_cons, Option.some.injEq] at hc
    subst hc
    decide
  · intro c hc
    apply hprop.2 c
    rw [List.getLast?_append] at hc
    cases hl : s.data.getLast? with
    | none => exact absurd (List.getLast?_eq_none_iff.mp hl) hnil
    | some d => rw [hl] at hc; simpa using hc

theorem HasPrefix_http_append (s : String) :
    HasPrefix ("http://" ++ s) "http" = true ∧ HasPrefix ("http://" ++ s) "#" = false ∧
      "http://" ++ s ≠ "" := by
  have h7 : ("http://" : String).data = ['h', 't', 't', 'p', ':', '/', '/'] := rfl
  have h4 : ("http" : String).data = ['h', 't', 't', 'p'] := rfl
  refine ⟨?_, ?_, ?_⟩
  · simp [HasPrefix, String.data_append, h7, h4, List.isPrefixOf]
  · rw [HasPrefix_hash]
    simp [String.data_append, h7]
  · intro h
    have := congrArg String.data h
    simp [String.data_append, h7] at this

/-- C7, evaluated on the code: the entries `httpbin.org` and `http.example.com`
carry no `http://` or `https://` prefix, yet both readers hand them on unchanged,
because the test in the loop body is `strings.HasPrefix(line, "http")`. -/
theorem C7_http_prefixed_host_gets_no_scheme :
    HasPrefix "httpbin.org" "http://" = false ∧ HasPrefix "httpbin.org" "https://" = false ∧
    (readTargetsAsText (textFile ["httpbin.org", "http.example.com"])).1
      = ["httpbin.org", "http.example.com"] ∧
    (readTargets (yamlFile ["httpbin.org", "http.example.com"])).1
      = ["httpbin.org", "http.example.com"] ∧
    (readTargetsAsText (textFile ["httpbin.org"])).1 ≠ ["http://httpbin.org"] := by
  decide

/-- What the loop body does with an entry that is kept: an entry whose trimmed
form begins with `http://` or `https://` is handed on trimmed and unchanged, and
an entry whose trimmed form does not begin with `http` gets `http://` in front. -/
theorem normalizeLine_scheme (raw : String) (hk : specKeeps raw = true) :
    ((HasPrefix (TrimSpace raw) "http://" = true ∨ HasPrefix (TrimSpace raw) "https://" = true) →
      normalizeLine raw = some (TrimSpace raw)) ∧
    (HasPrefix (TrimSpace raw) "http" = false →
      normalizeLine raw = some ("http://" ++ TrimSpace raw)) := by
  rw [normalizeLine_eq_spec, if_pos hk]
  unfold specNormalised
  have h4 : ("http" : String).data = ['h', 't', 't', 'p'] := rfl
  have h7 : ("http://" : String).data = ['h', 't', 't', 'p', ':', '/', '/'] := rfl
  have h8 : ("https://" : String).data = ['h', 't', 't', 'p', 's', ':', '/', '/'] := rfl
  constructor
  · intro h
    have hp : HasPrefix (TrimSpace raw) "http" = true := by
      unfold HasPrefix at h ⊢
      rw [h7, h8] at h
      rw [h4]
      rcases h with h | h
      · obtain ⟨t, ht⟩ := List.isPrefixOf_iff_prefix.mp h
        rw [← ht]
        simp [List.isPrefixOf]
      · obtain ⟨t, ht⟩ := List.isPrefixOf_iff_prefix.mp h
        rw [← ht]
        simp [List.isPrefixOf]
    rw [if_pos hp]
  · intro h
    simp [h]

/-- C8: the loop body of the target readers is idempotent on kept entries: when an
entry yields the target `t`, feeding `t` through the loop body again yields `t`
itself, so `http://` is never put in front twice. -/
theorem C8_normalizeLine_idempotent (raw t : String) (h : normalizeLine raw = some t) :
    normalizeLine t = some t := by
  unfold normalizeLine at h
  simp only at h
  by_cases h1 : (TrimSpace raw == "" || HasPrefix (TrimSpace raw) "#") = true
  · rw [if_pos h1] at h
    exact absurd h (by simp)
  · rw [if_neg h1] at h
    have hne : TrimSpace raw ≠ "" := by
      intro he
      apply h1
      simp [he]
    have hhash : HasPrefix (TrimSpace raw) "#" = false := by
      cases hh : HasPrefix (TrimSpace raw) "#" with
      | false => rfl
      | true => exact absurd (by simp [hh]) h1
    by_cases h2 : HasPrefix (TrimSpace raw) "http" = true
    · simp only [h2, Bool.not_true, Bool.false_eq_true, if_false, Option.some.injEq] at h
      subst h
      unfold normalizeLine
      simp only [TrimSpace_idem]
      rw [if_neg h1]
      simp [h2]
    · simp only [h2, Bool.not_false, if_true, Option.some.injEq] at h
      subst h
      obtain ⟨p1, p2, p3⟩ := HasPrefix_http_append (TrimSpace raw)
      unfold normalizeLine
      simp only [TrimSpace_http_append (TrimSpace raw) (TrimSpace_idem raw) hne]
      simp [p1, p2, p3]

/-- C8 at a concrete entry: `  example.com ` yields `http://example.com`, which is
a fixed point of the loop body. -/
theorem C8_normalizeLine_idempotent_witness :
    normalizeLine "  example.com " = some "http://example.com" ∧
      normalizeLine "http://example.com" = some "http://example.com" :=
  ⟨by decide, C8_normalizeLine_idempotent "  example.com " "http://example.com" (by decide)⟩

/-- C9: both readers produce exactly the normalised images, in input order, of
the entries that after trimming are non-empty and do not begin with `#`; the
list of the specification yields its two targets. -/
theorem C9_readers_keep_exactly_nonblank_noncomment :
    (∀ lines : List String, scanLoop [] lines = specTargets lines) ∧
    (∀ f : TargetFile, f.openErr = none → (readTargetsAsText f).1 = specTargets f.lines) ∧
    (∀ (f : TargetFile) (entries : List String), f.openErr = none →
      (f.ext = ".yaml" ∨ f.ext = ".yml") → f.readErr = none → f.yaml = .ok entries →
      (readTargets f).1 = specTargets entries) ∧
    (∀ lines : List String, ∀ t ∈ specTargets lines, ∃ raw ∈ lines,
      TrimSpace raw ≠ "" ∧ (TrimSpace raw).data.head? ≠ some '#' ∧ t = specNormalised raw) ∧
    (readTargetsAsText (textFile ["example.com", "# comment", "", "https://example.org"])).1
      = ["http://example.com", "https://example.org"] := by
  refine ⟨fun lines => by simp [scanLoop_eq_spec], ?_, ?_, ?_, by decide⟩
  · intro f hf
    simp [readTargetsAsText, hf, scanLoop_eq_spec]
  · intro f entries hf hext hr hy
    have he : (f.ext == ".yaml" || f.ext == ".yml") = true := by
      rcases hext with h | h <;> simp [h]
    simp [readTargets, hf, he, hr, hy, scanLoop_eq_spec]
  · intro lines t ht
    unfold specTargets at ht
    obtain ⟨raw, hraw, rfl⟩ := List.mem_map.mp ht
    obtain ⟨hmem, hkeep⟩ := List.mem_filter.mp hraw
    unfold specKeeps at hkeep
    simp only [Bool.and_eq_true, bne_iff_ne, ne_eq] at hkeep
    exact ⟨raw, hmem, hkeep.1, hkeep.2, rfl⟩

/-- C9 at concrete files: a text file and a YAML list with a comment and a blank
entry. -/
theorem C9_readers_keep_exactly_nonblank_noncomment_witness :
    (readTargetsAsText (textFile [" a.onion", "#x", "  "])).1 = specTargets [" a.onion", "#x", "  "] ∧
    (readTargets (yamlFile ["a.onion", " # c"])).1 = specTargets ["a.onion", " # c"] ∧
    specTargets ["a.onion", " # c"] = ["http://a.onion"] :=
  ⟨C9_readers_keep_exactly_nonblank_noncomment.2.1 (textFile [" a.onion", "#x", "  "]) rfl,
   C9_readers_keep_exactly_nonblank_noncomment.2.2.1 (yamlFile ["a.onion", " # c"]) ["a.onion", " # c"]
     rfl (Or.inl rfl) rfl rfl,
   by decide⟩

/-! ## Facts about `scanTarget` -/

/-- Every call of `os.WriteFile` made by `scanTarget` goes to the path derived
from the parsed URL. -/
theorem scanTarget_writes (env : Env) (rawURL : String) (st : State) (u : URL)
    (hp : env.parse = .ok u) :
    (scanTarget env rawURL st).writes = st.writes ∨
    ∃ body ok, (scanTarget env rawURL st).writes = st.writes ++ [⟨outputPath u, body, ok⟩] := by
  unfold scanTarget
  rw [hp]
  simp only
  split
  · exact Or.inl rfl
  · split
    · exact Or.inl rfl
    · split
      · exact Or.inl rfl
      · split
        · exact Or.inl rfl
        · split
          · exact Or.inr ⟨_, false, rfl⟩
          · exact Or.inr ⟨_, true, rfl⟩

/-- C6: the output path is `scraped/`, then the host with every `:` replaced by
`_`, then `.html`; the file name contains no `:`, contains no `/` when the host
has none, and is the same for all URLs with the same host, whatever their path;
`scanTarget` writes to no other path. -/
theorem C6_output_path_from_host (u : URL) :
    (outputPath u).data = "scraped/".data
        ++ u.Host.data.map (fun c => if c = ':' then '_' else c) ++ ".html".data ∧
    ':' ∉ (outputFilename u).data ∧
    ('/' ∉ u.Host.data → '/' ∉ (outputFilename u).data) ∧
    (∀ v : URL, v.Host = u.Host → outputPath v = outputPath u) ∧
    (∀ (env : Env) (rawURL : String) (st : State), env.parse = .ok u →
      ∀ w ∈ (scanTarget env rawURL st).writes, w ∈ st.writes ∨ w.path = outputPath u) := by
  have hc : (":" : String).data = [':'] := rfl
  have hu : ("_" : String).data = ['_'] := rfl
  have hh : (".html" : String).data = ['.', 'h', 't', 'm', 'l'] := rfl
  have hf : (outputFilename u).data
      = u.Host.data.map (fun c => if c = ':' then '_' else c) ++ ".html".data := by
    simp only [outputFilename, ReplaceAll, String.data_append, hc, hu, replaceAllAux_colon]
  refine ⟨?_, ?_, ?_, ?_, ?_⟩
  · simp only [outputPath, outputDir, String.data_append, hf]
    simp
  · rw [hf, hh]
    intro hmem
    rcases List.mem_append.mp hmem with h | h
    · obtain ⟨c, _, hce⟩ := List.mem_map.mp h
      by_cases hcc : c = ':'
      · simp [hcc] at hce
      · simp [hcc] at hce
    · simp at h
  · intro hno
    rw [hf, hh]
    intro hmem
    rcases List.mem_append.mp hmem with h | h
    · obtain ⟨c, hcm, hce⟩ := List.mem_map.mp h
      by_cases hcc : c = ':'
      · simp [hcc] at hce
      · simp [hcc] at hce
        exact hno (hce ▸ hcm)
    · simp at h
  · intro v hv
    simp [outputPath, outputFilename, hv]
  · intro env rawURL st hp w hw
    rcases scanTarget_writes env rawURL st u hp with h | ⟨body, ok, h⟩
    · rw [h] at hw
      exact Or.inl hw
    · rw [h] at hw
      rcases List.mem_append.mp hw with h1 | h1
      · exact Or.inl h1
      · simp at h1
        exact Or.inr (by rw [h1])

/-- C6 at concrete URLs: host `b.onion:8080` with paths `/x` and `/y`. -/
theorem C6_output_path_from_host_witness :
    outputPath ⟨"http", "b.onion:8080", "/x"⟩ = "scraped/b.onion_8080.html" ∧
    outputPath ⟨"http", "b.onion:8080", "/y"⟩ = outputPath ⟨"http", "b.onion:8080", "/x"⟩ ∧
    '/' ∉ (outputFilename ⟨"http", "b.onion:8080", "/x"⟩).data :=
  ⟨by decide,
   (C6_output_path_from_host ⟨"http", "b.onion:8080", "/x"⟩).2.2.2.1
     ⟨"http", "b.onion:8080", "/y"⟩ rfl,
   (C6_output_path_from_host ⟨"http", "b.onion:8080", "/x"⟩).2.2.1 (by decide)⟩

theorem wrapInt32_of_range (x : Int) (h1 : -2147483648 ≤ x) (h2 : x < 2147483648) :
    wrapInt32 x = x := by
  unfold wrapInt32
  omega

theorem wrapInt64_of_range (x : Int) (h1 : -9223372036854775808 ≤ x)
    (h2 : x < 9223372036854775808) : wrapInt64 x = x := by
  unfold wrapInt64
  omega

theorem wrapInt64_add_wrap (a b : Int) : wrapInt64 (wrapInt64 a + b) = wrapInt64 (a + b) := by
  unfold wrapInt64
  omega

/-- Result of `scanTarget` when `url.Parse` fails. -/
theorem scanTarget_parse_error (env : Env) (rawURL : String) (st : State) (err : String)
    (hp : env.parse = .error err) :
    scanTarget env rawURL st =
      { st with log := st.log ++ [.errInvalidURL rawURL err],
                stats := { st.stats with Failed := AddInt32 st.stats.Failed 1 } } := by
  simp [scanTarget, hp]

/-- Result of `scanTarget` when `client.Do` fails. -/
theorem scanTarget_transport_error (env : Env) (rawURL : String) (st : State) (u : URL)
    (err : String) (hp : env.parse = .ok u) (hq : env.requestErr = none)
    (hr : env.resp = .error err) :
    scanTarget env rawURL st =
      { st with log := st.log ++ [.errTransport rawURL err],
                stats := { st.stats with Failed := AddInt32 st.stats.Failed 1 } } := by
  simp [scanTarget, hp, hq, hr]

/-- Result of `scanTarget` when the response status differs from `http.StatusOK`. -/
theorem scanTarget_status_not_ok (env : Env) (rawURL : String) (st : State) (u : URL)
    (resp : Response) (hp : env.parse = .ok u) (hq : env.requestErr = none)
    (hr : env.resp = .ok resp) (hs : resp.StatusCode ≠ StatusOK) :
    scanTarget env rawURL st =
      { st with log := st.log ++ [.warnStatus rawURL resp.StatusCode],
                stats := { st.stats with Warnings := AddInt32 st.stats.Warnings 1 } } := by
  simp [scanTarget, hp, hq, hr, hs]

/-- Result of `scanTarget` when status is 200 and `io.ReadAll` fails. -/
theorem scanTarget_read_error (env : Env) (rawURL : String) (st : State) (u : URL)
    (resp : Response) (err : String) (hp : env.parse = .ok u) (hq : env.requestErr = none)
    (hr : env.resp = .ok resp) (hs : resp.StatusCode = StatusOK) (hb : resp.Body = .error err) :
    scanTarget env rawURL st =
      { st with log := st.log ++ [.errRead rawURL err],
                stats := { st.stats with Failed := AddInt32 st.stats.Failed 1 } } := by
  simp [scanTarget, hp, hq, hr, hs, hb]

/-- Result of `scanTarget` when status is 200, the body is read and `os.WriteFile`
fails. -/
theorem scanTarget_write_error (env : Env) (rawURL : String) (st : State) (u : URL)
    (resp : Response) (body : List UInt8) (err : String) (hp : env.parse = .ok u)
    (hq : env.requestErr = none) (hr : env.resp = .ok resp) (hs : resp.StatusCode = StatusOK)
    (hb : resp.Body = .ok body) (hw : env.writeErr = some err) :
    scanTarget env rawURL st =
      { writes := st.writes ++ [⟨outputPath u, body, false⟩],
        log := st.log ++ [.errWrite rawURL err],
        stats := { st.stats with Failed := AddInt32 st.stats.Failed 1 } } := by
  simp [scanTarget, hp, hq, hr, hs, hb, hw, outputPath]

/-- Result of `scanTarget` when status is 200, the body is read and written. -/
theorem scanTarget_success (env : Env) (rawURL : String) (st : State) (u : URL)
    (resp : Response) (body : List UInt8) (hp : env.parse = .ok u)
    (hq : env.requestErr = none) (hr : env.resp = .ok resp) (hs : resp.StatusCode = StatusOK)
    (hb : resp.Body = .ok body) (hw : env.writeErr = none) :
    scanTarget env rawURL st =
      { writes := st.writes ++ [⟨outputPath u, body, true⟩],
        stats := { st.stats with
          Success := AddInt32 st.stats.Success 1,
          TotalBytes := AddInt64 st.stats.TotalBytes body.length },
        log := st.log ++ [.success rawURL body.length (outputFilename u)] } := by
  simp [scanTarget, hp, hq, hr, hs, hb, hw, outputPath]

/-- Every call of `scanTarget` leaves `Total` alone and adds 1 (in `int32`) to
exactly one of `Success`, `Warnings`, `Failed`. -/
theorem scanTarget_counts (env : Env) (rawURL : String) (st : State) :
    (scanTarget env rawURL st).stats.Total = st.stats.Total ∧
    (((scanTarget env rawURL st).stats.Success = AddInt32 st.stats.Success 1 ∧
        (scanTarget env rawURL st).stats.Warnings = st.stats.Warnings ∧
        (scanTarget env rawURL st).stats.Failed = st.stats.Failed) ∨
     ((scanTarget env rawURL st).stats.Success = st.stats.Success ∧
        (scanTarget env rawURL st).stats.Warnings = AddInt32 st.stats.Warnings 1 ∧
        (scanTarget env rawURL st).stats.Failed = st.stats.Failed) ∨
     ((scanTarget env rawURL st).stats.Success = st.stats.Success ∧
        (scanTarget env rawURL st).stats.Warnings = st.stats.Warnings ∧
        (scanTarget env rawURL st).stats.Failed = AddInt32 st.stats.Failed 1)) := by
  unfold scanTarget
  split
  · simp
  · split
    · simp
    · split
      · simp
      · split
        · simp
        · split
          · simp
          · split
            · simp
            · simp

/-- Counter balance over a sequence of calls, in `int32` arithmetic. -/
theorem scanAll_counts (jobs : List (String × Env)) (st : State) :
    (scanAll jobs st).stats.Total = st.stats.Total ∧
    wrapInt32 ((scanAll jobs st).stats.Success + (scanAll jobs st).stats.Warnings
        + (scanAll jobs st).stats.Failed)
      = wrapInt32 (st.stats.Success + st.stats.Warnings + st.stats.Failed + jobs.length) := by
  induction jobs generalizing st with
  | nil => simp [scanAll]
  | cons j rest ih =>
    obtain ⟨u, env⟩ := j
    obtain ⟨ht, hsum⟩ := ih (scanTarget env u st)
    obtain ⟨ht1, hc⟩ := scanTarget_counts env u st
    refine ⟨by simp only [scanAll]; rw [ht, ht1], ?_⟩
    simp only [scanAll, List.length_cons, Nat.cast_add, Nat.cast_one]
    rw [hsum]
    rcases hc with ⟨h1, h2, h3⟩ | ⟨h1, h2, h3⟩ | ⟨h1, h2, h3⟩ <;>
    · rw [h1, h2, h3]
      unfold AddInt32 wrapInt32
      omega

/-- Counter balance over a sequence of calls when no counter overflows. -/
theorem scanAll_counts_exact (jobs : List (String × Env)) (st : State)
    (hS : 0 ≤ st.stats.Success) (hW : 0 ≤ st.stats.Warnings) (hF : 0 ≤ st.stats.Failed)
    (hb : st.stats.Success + st.stats.Warnings + st.stats.Failed + jobs.length < 2147483648) :
    0 ≤ (scanAll jobs st).stats.Success ∧ 0 ≤ (scanAll jobs st).stats.Warnings ∧
    0 ≤ (scanAll jobs st).stats.Failed ∧
    (scanAll jobs st).stats.Success + (scanAll jobs st).stats.Warnings
        + (scanAll jobs st).stats.Failed
      = st.stats.Success + st.stats.Warnings + st.stats.Failed + jobs.length := by
  induction jobs generalizing st with
  | nil => simp [scanAll, hS, hW, hF]
  | cons j rest ih =>
    obtain ⟨u, env⟩ := j
    simp only [List.length_cons, Nat.cast_add, Nat.cast_one] at hb
    obtain ⟨_, hc⟩ := scanTarget_counts env u st
    have key : 0 ≤ (scanTarget env u st).stats.Success ∧ 0 ≤ (scanTarget env u st).stats.Warnings ∧
        0 ≤ (scanTarget env u st).stats.Failed ∧
        (scanTarget env u st).stats.Success + (scanTarget env u st).stats.Warnings
          + (scanTarget env u st).stats.Failed
          = st.stats.Success + st.stats.Warnings + st.stats.Failed + 1 := by
      rcases hc with ⟨h1, h2, h3⟩ | ⟨h1, h2, h3⟩ | ⟨h1, h2, h3⟩ <;>
      · rw [h1, h2, h3]
        unfold AddInt32 wrapInt32
        omega
    obtain ⟨k1, k2, k3, k4⟩ := key
    have := ih (scanTarget env u st) k1 k2 k3 (by rw [k4]; omega)
    simp only [scanAll, List.length_cons, Nat.cast_add, Nat.cast_one]
    rw [k4] at this
    obtain ⟨a, b, c, d⟩ := this
    exact ⟨a, b, c, by rw [d]; ring⟩

/-- C1: after one `scanTarget` call per target, started from the counters that
`main` initialises, `Success + Warnings + Failed == Total` holds as Go evaluates
it over `int32`, and as an equation between integers, with `Total` the number of
targets, whenever that number fits into `int32`; every call adds 1 to exactly one
of the three counters and leaves `Total` alone. -/
theorem C1_counters_sum_to_total (jobs : List (String × Env)) :
    wrapInt32 (wrapInt32 ((runAll jobs).stats.Success + (runAll jobs).stats.Warnings)
        + (runAll jobs).stats.Failed) = (runAll jobs).stats.Total ∧
    (jobs.length < 2147483648 →
      (runAll jobs).stats.Success + (runAll jobs).stats.Warnings + (runAll jobs).stats.Failed
        = (runAll jobs).stats.Total ∧ (runAll jobs).stats.Total = jobs.length) ∧
    (∀ (env : Env) (rawURL : String) (st : State),
      (scanTarget env rawURL st).stats.Total = st.stats.Total ∧
      (((scanTarget env rawURL st).stats.Success = AddInt32 st.stats.Success 1 ∧
          (scanTarget env rawURL st).stats.Warnings = st.stats.Warnings ∧
          (scanTarget env rawURL st).stats.Failed = st.stats.Failed) ∨
       ((scanTarget env rawURL st).stats.Success = st.stats.Success ∧
          (scanTarget env rawURL st).stats.Warnings = AddInt32 st.stats.Warnings 1 ∧
          (scanTarget env rawURL st).stats.Failed = st.stats.Failed) ∨
       ((scanTarget env rawURL st).stats.Success = st.stats.Success ∧
          (scanTarget env rawURL st).stats.Warnings = st.stats.Warnings ∧
          (scanTarget env rawURL st).stats.Failed = AddInt32 st.stats.Failed 1))) := by
  have hT : (runAll jobs).stats.Total = wrapInt32 jobs.length := by
    have := (scanAll_counts jobs (initState (jobs.map Prod.fst))).1
    simpa [runAll, initState, initStats] using this
  refine ⟨?_, ?_, scanTarget_counts⟩
  · have := (scanAll_counts jobs (initState (jobs.map Prod.fst))).2
    simp only [initState, initStats, add_zero, zero_add] at this
    rw [hT, ← this]
    unfold runAll initState initStats wrapInt32
    omega
  · intro hlen
    have hlen' : (jobs.length : Int) < 2147483648 := by exact_mod_cast hlen
    have hTot : (runAll jobs).stats.Total = jobs.length := by
      rw [hT]
      exact wrapInt32_of_range _ (by omega) hlen'
    have := scanAll_counts_exact jobs (initState (jobs.map Prod.fst))
      (by simp [initState, initStats]) (by simp [initState, initStats])
      (by simp [initState, initStats]) (by simpa [initState, initStats] using hlen')
    refine ⟨?_, hTot⟩
    rw [hTot]
    simpa [runAll, initState, initStats] using this.2.2.2

/-- C1 at three concrete targets (one success, one 404, one timeout). -/
theorem C1_counters_sum_to_total_witness :
    sampleJobs.length < 2147483648 ∧
    (runAll sampleJobs).stats.Success + (runAll sampleJobs).stats.Warnings
      + (runAll sampleJobs).stats.Failed = (runAll sampleJobs).stats.Total ∧
    (runAll sampleJobs).stats.Total = sampleJobs.length :=
  ⟨by decide, (C1_counters_sum_to_total sampleJobs).2.1 (by decide)⟩

/-- Every call of `scanTarget` appends exactly one line to the log. -/
theorem scanTarget_log_length (env : Env) (rawURL : String) (st : State) :
    (scanTarget env rawURL st).log.length = st.log.length + 1 := by
  unfold scanTarget
  split
  · simp
  · split
    · simp
    · split
      · simp
      · split
        · simp
        · split
          · simp
          · split
            · simp
            · simp

/-- A sequence of calls appends one log line per target: no target is skipped. -/
theorem scanAll_log_length (jobs : List (String × Env)) (st : State) :
    (scanAll jobs st).log.length = st.log.length + jobs.length := by
  induction jobs generalizing st with
  | nil => simp [scanAll]
  | cons j rest ih =>
    obtain ⟨u, env⟩ := j
    simp only [scanAll, List.length_cons]
    rw [ih, scanTarget_log_length]
    omega

/-- C2 as stated fails: a response with status 204, which is a 2xx code, whose
body could be read and written, is counted as a warning and nothing is written. -/
theorem C2_counterexample_status_204 :
    ((200 : Int) ≤ 204 ∧ (204 : Int) ≤ 299) ∧
    scanTarget (envStatus "a.onion" 204 [1, 2, 3]) "http://a.onion" (initState ["http://a.onion"])
      = { stats := { Total := 1, Success := 0, Failed := 0, Warnings := 1, TotalBytes := 0 },
          writes := [],
          log := [.warnStatus "http://a.onion" 204] } := by
  decide

/-- C2, amended: for a target whose request returns a response, `scanTarget` takes
the warning exit (warning line logged, `Warnings` incremented, nothing else
changed, no file written) exactly when the status code is not 200; for status
200 it reads the body and writes it, ending in success when both succeed. -/
theorem C2_warning_iff_status_not_200 (env : Env) (rawURL : String) (st : State) (u : URL)
    (resp : Response) (hp : env.parse = .ok u) (hq : env.requestErr = none)
    (hr : env.resp = .ok resp) :
    ((scanTarget env rawURL st).log = st.log ++ [.warnStatus rawURL resp.StatusCode]
      ↔ resp.StatusCode ≠ 200) ∧
    (resp.StatusCode ≠ 200 →
      scanTarget env rawURL st =
        { st with log := st.log ++ [.warnStatus rawURL resp.StatusCode],
                  stats := { st.stats with Warnings := AddInt32 st.stats.Warnings 1 } }) ∧
    (resp.StatusCode = 200 → ∀ body, resp.Body = .ok body → env.writeErr = none →
      scanTarget env rawURL st =
        { writes := st.writes ++ [⟨outputPath u, body, true⟩],
          stats := { st.stats with
            Success := AddInt32 st.stats.Success 1,
            TotalBytes := AddInt64 st.stats.TotalBytes body.length },
          log := st.log ++ [.success rawURL body.length (outputFilename u)] }) := by
  refine ⟨⟨?_, ?_⟩, ?_, ?_⟩
  · intro hlog hs
    have hs' : resp.StatusCode = StatusOK := hs
    cases hb : resp.Body with
    | error err =>
      rw [scanTarget_read_error env rawURL st u resp err hp hq hr hs' hb] at hlog
      simp at hlog
    | ok body =>
      cases hw : env.writeErr with
      | some err =>
        rw [scanTarget_write_error env rawURL st u resp body err hp hq hr hs' hb hw] at hlog
        simp at hlog
      | none =>
        rw [scanTarget_success env rawURL st u resp body hp hq hr hs' hb hw] at hlog
        simp at hlog
  · intro hs
    rw [scanTarget_status_not_ok env rawURL st u resp hp hq hr hs]
  · intro hs
    exact scanTarget_status_not_ok env rawURL st u resp hp hq hr hs
  · intro hs body hb hw
    exact scanTarget_success env rawURL st u resp body hp hq hr hs hb hw

/-- C2, amended, at a 404 response. -/
theorem C2_warning_iff_status_not_200_witness :
    (scanTarget (envStatus "a.onion" 404 [7]) "http://a.onion/x" (initState ["http://a.onion/x"])).log
      = [] ++ [.warnStatus "http://a.onion/x" 404] :=
  (C2_warning_iff_status_not_200 (envStatus "a.onion" 404 [7]) "http://a.onion/x"
    (initState ["http://a.onion/x"]) ⟨"http", "a.onion", ""⟩ ⟨404, .ok [7]⟩ rfl rfl rfl).1.mpr
    (by decide)

/-- C3: for a response whose status is not 200 (404, and every other non-2xx
code), `scanTarget` adds 1 to `Warnings` and leaves `Success`, `Failed`,
`TotalBytes`, `Total` and the file system alone. -/
theorem C3_warning_frame (env : Env) (rawURL : String) (st : State) (u : URL)
    (resp : Response) (hp : env.parse = .ok u) (hq : env.requestErr = none)
    (hr : env.resp = .ok resp) (hs : resp.StatusCode ≠ 200) :
    (scanTarget env rawURL st).stats.Warnings = AddInt32 st.stats.Warnings 1 ∧
    (-2147483648 ≤ st.stats.Warnings → st.stats.Warnings < 2147483647 →
      (scanTarget env rawURL st).stats.Warnings = st.stats.Warnings + 1) ∧
    (scanTarget env rawURL st).stats.Success = st.stats.Success ∧
    (scanTarget env rawURL st).stats.Failed = st.stats.Failed ∧
    (scanTarget env rawURL st).stats.TotalBytes = st.stats.TotalBytes ∧
    (scanTarget env rawURL st).stats.Total = st.stats.Total ∧
    (scanTarget env rawURL st).writes = st.writes := by
  rw [scanTarget_status_not_ok env rawURL st u resp hp hq hr hs]
  refine ⟨rfl, ?_, rfl, rfl, rfl, rfl, rfl⟩
  intro h1 h2
  exact wrapInt32_of_range _ (by omega) (by omega)

/-- C3 at a 404 response: the statistics after the call. -/
theorem C3_warning_frame_witness :
    ((404 : Int) ≠ 200) ∧
    (scanTarget (envStatus "a.onion" 404 [7]) "http://a.onion/x"
        (initState ["http://a.onion/x"])).stats.Warnings = 0 + 1 ∧
    (scanTarget (envStatus "a.onion" 404 [7]) "http://a.onion/x"
        (initState ["http://a.onion/x"])).writes = [] :=
  ⟨by decide,
   (C3_warning_frame (envStatus "a.onion" 404 [7]) "http://a.onion/x"
      (initState ["http://a.onion/x"]) ⟨"http", "a.onion", ""⟩ ⟨404, .ok [7]⟩ rfl rfl rfl
      (by decide)).2.1 (by decide) (by decide),
   (C3_warning_frame (envStatus "a.onion" 404 [7]) "http://a.onion/x"
      (initState ["http://a.onion/x"]) ⟨"http", "a.onion", ""⟩ ⟨404, .ok [7]⟩ rfl rfl rfl
      (by decide)).2.2.2.2.2.2⟩

/-- C4: when `client.Do` returns an error, `scanTarget` adds 1 to `Failed`, leaves
`Success`, `Warnings`, `TotalBytes`, `Total` and the file system alone, and
returns, so that the remaining targets are processed from the resulting state,
each one producing its log line. -/
theorem C4_transport_error_frame (env : Env) (rawURL : String) (st : State) (u : URL)
    (err : String) (hp : env.parse = .ok u) (hq : env.requestErr = none)
    (hr : env.resp = .error err) :
    (scanTarget env rawURL st).stats.Failed = AddInt32 st.stats.Failed 1 ∧
    (-2147483648 ≤ st.stats.Failed → st.stats.Failed < 2147483647 →
      (scanTarget env rawURL st).stats.Failed = st.stats.Failed + 1) ∧
    (scanTarget env rawURL st).stats.Success = st.stats.Success ∧
    (scanTarget env rawURL st).stats.Warnings = st.stats.Warnings ∧
    (scanTarget env rawURL st).stats.TotalBytes = st.stats.TotalBytes ∧
    (scanTarget env rawURL st).stats.Total = st.stats.Total ∧
    (scanTarget env rawURL st).writes = st.writes ∧
    (∀ rest : List (String × Env),
      scanAll ((rawURL, env) :: rest) st =
        scanAll rest { st with log := st.log ++ [.errTransport rawURL err],
                               stats := { st.stats with Failed := AddInt32 st.stats.Failed 1 } } ∧
      (scanAll ((rawURL, env) :: rest) st).log.length = st.log.length + 1 + rest.length) := by
  have hst := scanTarget_transport_error env rawURL st u err hp hq hr
  rw [hst]
  refine ⟨rfl, ?_, rfl, rfl, rfl, rfl, rfl, ?_⟩
  · intro h1 h2
    exact wrapInt32_of_range _ (by omega) (by omega)
  · intro rest
    refine ⟨by simp only [scanAll]; rw [hst], ?_⟩
    rw [scanAll_log_length]
    simp only [List.length_cons]
    omega

/-- C4 at a timed-out target followed by two more targets. -/
theorem C4_transport_error_frame_witness :
    (scanTarget (envTransportErr "c.onion" "timeout") "http://c.onion"
        (initState ["http://c.onion"])).stats.Failed = 0 + 1 ∧
    (scanAll (("http://c.onion", envTransportErr "c.onion" "timeout") :: sampleJobs)
        (initState [])).log.length = 0 + 1 + 3 :=
  ⟨(C4_transport_error_frame (envTransportErr "c.onion" "timeout") "http://c.onion"
      (initState ["http://c.onion"]) ⟨"http", "c.onion", ""⟩ "timeout" rfl rfl rfl).2.1
      (by decide) (by decide),
   ((C4_transport_error_frame (envTransportErr "c.onion" "timeout") "http://c.onion"
      (initState []) ⟨"http", "c.onion", ""⟩ "timeout" rfl rfl rfl).2.2.2.2.2.2.2 sampleJobs).2⟩

theorem bytesWritten_append (ws : List WriteCall) (w : WriteCall) :
    bytesWritten (ws ++ [w]) = bytesWritten ws + (if w.ok then w.data.length else 0) := by
  unfold bytesWritten
  by_cases h : w.ok = true
  · simp [List.filter_append, h, List.filter_cons]
  · simp [List.filter_append, h, List.filter_cons]

/-- One call of `scanTarget` keeps `TotalBytes` equal to the `int64` image of the
number of bytes written. -/
theorem scanTarget_bytes (env : Env) (rawURL : String) (st : State)
    (h : st.stats.TotalBytes = wrapInt64 (bytesWritten st.writes)) :
    (scanTarget env rawURL st).stats.TotalBytes
      = wrapInt64 (bytesWritten (scanTarget env rawURL st).writes) := by
  unfold scanTarget
  split
  · simpa using h
  · split
    · simpa using h
    · split
      · simpa using h
      · split
        · simpa using h
        · split
          · simpa using h
          · split
            · simp only [bytesWritten_append]
              simpa using h
            · simp only [bytesWritten_append, AddInt64, h, if_true, Nat.cast_add]
              exact wrapInt64_add_wrap _ _

theorem scanAll_bytes (jobs : List (String × Env)) (st : State)
    (h : st.stats.TotalBytes = wrapInt64 (bytesWritten st.writes)) :
    (scanAll jobs st).stats.TotalBytes = wrapInt64 (bytesWritten (scanAll jobs st).writes) := by
  induction jobs generalizing st with
  | nil => simpa [scanAll] using h
  | cons j rest ih =>
    obtain ⟨u, env⟩ := j
    simp only [scanAll]
    exact ih _ (scanTarget_bytes env u st h)

/-- C5: a successful fetch makes exactly one `os.WriteFile` call, with the body it
read, to the output path, adds the length of that body to `TotalBytes` and 1 to
`Success`; after a run `TotalBytes` is the sum of the lengths of the bodies
written (as an `int64`, and as an integer whenever the sum fits). -/
theorem C5_bytes_counted_equal_bytes_written :
    (∀ (env : Env) (rawURL : String) (st : State) (u : URL) (resp : Response)
        (body : List UInt8), env.parse = .ok u → env.requestErr = none → env.resp = .ok resp →
        resp.StatusCode = 200 → resp.Body = .ok body → env.writeErr = none →
      (scanTarget env rawURL st).writes = st.writes ++ [⟨outputPath u, body, true⟩] ∧
      (scanTarget env rawURL st).stats.TotalBytes = AddInt64 st.stats.TotalBytes body.length ∧
      (scanTarget env rawURL st).stats.Success = AddInt32 st.stats.Success 1 ∧
      (-9223372036854775808 ≤ st.stats.TotalBytes →
        st.stats.TotalBytes + body.length < 9223372036854775808 →
        (scanTarget env rawURL st).stats.TotalBytes = st.stats.TotalBytes + body.length) ∧
      (-2147483648 ≤ st.stats.Success → st.stats.Success < 2147483647 →
        (scanTarget env rawURL st).stats.Success = st.stats.Success + 1)) ∧
    (∀ jobs : List (String × Env),
      (runAll jobs).stats.TotalBytes = wrapInt64 (bytesWritten (runAll jobs).writes) ∧
      (bytesWritten (runAll jobs).writes < 9223372036854775808 →
        (runAll jobs).stats.TotalBytes = bytesWritten (runAll jobs).writes)) := by
  constructor
  · intro env rawURL st u resp body hp hq hr hs hb hw
    rw [scanTarget_success env rawURL st u resp body hp hq hr hs hb hw]
    refine ⟨rfl, rfl, rfl, ?_, ?_⟩
    · intro h1 h2
      exact wrapInt64_of_range _ (by omega) h2
    · intro h1 h2
      exact wrapInt32_of_range _ (by omega) (by omega)
  · intro jobs
    have h := scanAll_bytes jobs (initState (jobs.map Prod.fst))
      (by simp [initState, initStats, bytesWritten, wrapInt64])
    refine ⟨h, ?_⟩
    intro hlt
    have hlt' : ((bytesWritten (runAll jobs).writes : Nat) : Int) < 9223372036854775808 := by
      exact_mod_cast hlt
    show (scanAll jobs (initState (jobs.map Prod.fst))).stats.TotalBytes = _
    rw [h]
    exact wrapInt64_of_range _ (by omega) hlt'

/-- C5 at a concrete successful fetch and at the three-target run. -/
theorem C5_bytes_counted_equal_bytes_written_witness :
    (scanTarget (envStatus "a.onion" 200 [1, 2, 3]) "http://a.onion" (initState [])).writes
      = [] ++ [⟨"scraped/a.onion.html", [1, 2, 3], true⟩] ∧
    (scanTarget (envStatus "a.onion" 200 [1, 2, 3]) "http://a.onion"
        (initState [])).stats.TotalBytes = 0 + 3 ∧
    (runAll sampleJobs).stats.TotalBytes = bytesWritten (runAll sampleJobs).writes ∧
    bytesWritten (runAll sampleJobs).writes = 3 :=
  ⟨(C5_bytes_counted_equal_bytes_written.1 (envStatus "a.onion" 200 [1, 2, 3]) "http://a.onion"
      (initState []) ⟨"http", "a.onion", ""⟩ ⟨200, .ok [1, 2, 3]⟩ [1, 2, 3]
      rfl rfl rfl rfl rfl rfl).1,
   (C5_bytes_counted_equal_bytes_written.1 (envStatus "a.onion" 200 [1, 2, 3]) "http://a.onion"
      (initState []) ⟨"http", "a.onion", ""⟩ ⟨200, .ok [1, 2, 3]⟩ [1, 2, 3]
      rfl rfl rfl rfl rfl rfl).2.2.2.1 (by decide) (by decide),
   (C5_bytes_counted_equal_bytes_written.2 sampleJobs).2 (by decide),
   by decide⟩

/-! ## The scheduling loop -/

/-- Replacing one entry of a list changes a count by what the old and the new
entry contribute. -/
theorem countP_set_getElem? {α : Type} (p : α → Bool) (l : List α) (i : Nat) (x y : α)
    (h : l[i]? = some y) :
    (l.set i x).countP p + (if p y then 1 else 0) = l.countP p + (if p x then 1 else 0) := by
  induction l generalizing i with
  | nil => simp at h
  | cons a t ih =>
    cases i with
    | zero =>
      simp only [List.getElem?_cons_zero, Option.some.injEq] at h
      subst h
      simp only [List.set_cons_zero, List.countP_cons]
      omega
    | succ n =>
      simp only [List.getElem?_cons_succ] at h
      have := ih n h
      simp only [List.set_cons_succ, List.countP_cons]
      omega

theorem SchedInv_init (targets : List String) : SchedInv (initSched targets) := by
  simp [SchedInv, initSched, activeWorkers]

theorem SchedInv_stepMain (s s' : Sched) (h : SchedInv s) (hs : stepMain s = some s') :
    SchedInv s' := by
  obtain ⟨h1, h2⟩ := h
  unfold stepMain at hs
  cases hpc : s.pc with
  | add =>
    rw [hpc] at hs h1
    cases hpend : s.pending with
    | nil =>
      simp only [hpend, Option.some.injEq] at hs
      subst hs
      simpa [SchedInv, activeWorkers] using ⟨h1, h2⟩
    | cons u rest =>
      simp only [hpend, Option.some.injEq] at hs
      subst hs
      simpa [SchedInv, activeWorkers] using ⟨h1, h2⟩
  | send =>
    rw [hpc] at hs h1
    by_cases hlt : s.sem < maxConcurrent
    · simp only [hlt, if_true, Option.some.injEq] at hs
      subst hs
      simp only [SchedInv, activeWorkers, if_true] at h1 ⊢
      simp at h1
      constructor
      · omega
      · omega
    · simp [hlt] at hs
  | spawn =>
    rw [hpc] at hs h1
    cases hpend : s.pending with
    | nil => simp [hpend] at hs
    | cons u rest =>
      simp only [hpend, Option.some.injEq] at hs
      subst hs
      simp only [SchedInv, activeWorkers, if_true] at h1 ⊢
      simp only [List.countP_append, List.countP_cons, List.countP_nil]
      simp [WorkerPc.active]
      exact ⟨h1, h2⟩
  | wait =>
    rw [hpc] at hs h1
    by_cases hz : s.wg = 0
    · simp only [hz, if_true, Option.some.injEq] at hs
      subst hs
      simpa [SchedInv, activeWorkers] using ⟨h1, h2⟩
    · simp [hz] at hs
  | done =>
    rw [hpc] at hs
    simp at hs

/-- Moving one worker to another program counter changes the number of active
workers by what the two program counters contribute. -/
theorem active_set (ws : List (String × WorkerPc)) (i : Nat) (u : String) (pc pc' : WorkerPc)
    (h : ws[i]? = some (u, pc)) :
    (ws.set i (u, pc')).countP (fun w => w.2.active) + (if pc.active then 1 else 0)
      = ws.countP (fun w => w.2.active) + (if pc'.active then 1 else 0) :=
  countP_set_getElem? (fun w : String × WorkerPc => w.2.active) ws i (u, pc') (u, pc) h

theorem SchedInv_stepWorker (s s' : Sched) (i : Nat) (h : SchedInv s)
    (hs : stepWorker s i = some s') : SchedInv s' := by
  obtain ⟨h1, h2⟩ := h
  have e1 : WorkerPc.active .start = true := rfl
  have e2 : WorkerPc.active .scanning = true := rfl
  have e3 : WorkerPc.active .scanned = true := rfl
  have e4 : WorkerPc.active .released = false := rfl
  have e5 : WorkerPc.active .exited = false := rfl
  unfold stepWorker at hs
  cases hg : s.workers[i]? with
  | none => simp [hg] at hs
  | some w =>
    obtain ⟨u, pc⟩ := w
    rw [hg] at hs
    simp only [SchedInv, activeWorkers] at h1 ⊢
    cases pc with
    | start =>
      simp only [Option.some.injEq] at hs
      subst hs
      have := active_set s.workers i u .start .scanning hg
      simp only [e1, e2, if_true] at this
      dsimp only
      exact ⟨by omega, h2⟩
    | scanning =>
      simp only [Option.some.injEq] at hs
      subst hs
      have := active_set s.workers i u .scanning .scanned hg
      simp only [e2, e3, if_true] at this
      dsimp only
      exact ⟨by omega, h2⟩
    | scanned =>
      by_cases hpos : 0 < s.sem
      · simp only [hpos, if_true, Option.some.injEq] at hs
        subst hs
        have := active_set s.workers i u .scanned .released hg
        simp only [e3, e4, if_true, Bool.false_eq_true, if_false] at this
        dsimp only
        exact ⟨by omega, by omega⟩
      · simp [hpos] at hs
    | released =>
      simp only [Option.some.injEq] at hs
      subst hs
      have := active_set s.workers i u .released .exited hg
      simp only [e4, e5, Bool.false_eq_true, if_false] at this
      dsimp only
      exact ⟨by omega, h2⟩
    | exited => simp at hs

theorem SchedInv_exec (acts : List Action) (s : Sched) (h : SchedInv s) :
    SchedInv (exec s acts) := by
  induction acts generalizing s with
  | nil => exact h
  | cons a rest ih =>
    unfold exec
    cases hstep : step s a with
    | none => exact ih s h
    | some s' =>
      apply ih s'
      cases a with
      | main => exact SchedInv_stepMain s s' h hstep
      | worker i => exact SchedInv_stepWorker s s' i h hstep

/-- A worker inside `scanTarget` holds a slot. -/
theorem scanningWorkers_le_active (s : Sched) : scanningWorkers s ≤ activeWorkers s := by
  unfold scanningWorkers activeWorkers
  apply List.countP_mono_left
  intro w _ hw
  have : w.2 = .scanning := by simpa using hw
  rw [this]
  rfl

/-- C10: in every state the scheduling loop can reach, for every target list and
every interleaving of `main` and the workers, at most `maxConcurrent` workers
have been launched and have not yet given their slot back, so at most that many
`scanTarget` calls are in progress; the channel holds exactly one value per such
worker (one more while `main` is between the send and the `go` statement). -/
theorem C10_at_most_maxConcurrent_active (targets : List String) (acts : List Action) :
    activeWorkers (exec (initSched targets) acts) ≤ maxConcurrent ∧
    scanningWorkers (exec (initSched targets) acts) ≤ maxConcurrent ∧
    maxConcurrent = 5 ∧
    (exec (initSched targets) acts).sem = activeWorkers (exec (initSched targets) acts)
      + (if (exec (initSched targets) acts).pc = .spawn then 1 else 0) := by
  obtain ⟨h1, h2⟩ := SchedInv_exec acts (initSched targets) (SchedInv_init targets)
  have h3 := scanningWorkers_le_active (exec (initSched targets) acts)
  refine ⟨by omega, by omega, rfl, h1⟩

/-- The bound is attained, and a further target is launched once a worker has
given its slot back: with seven targets, `main` alone launches five workers and
then blocks at the send; after worker 0 has run to its end `main` launches the
sixth. -/
theorem sched_bound_attained :
    activeWorkers (exec (initSched ["a", "b", "c", "d", "e", "f", "g"])
      (List.replicate 40 .main)) = 5 ∧
    (exec (initSched ["a", "b", "c", "d", "e", "f", "g"]) (List.replicate 40 .main)).pc = .send ∧
    (exec (initSched ["a", "b", "c", "d", "e", "f", "g"])
      (List.replicate 40 .main ++ List.replicate 4 (.worker 0)
        ++ List.replicate 3 .main)).workers.length = 6 := by
  decide

/-- The deferred calls run in the order `<-sem`, `wg.Done()`: a worker that has
given its slot back is still a live goroutine until `wg.Done()` has run. With
six targets and worker 0 stopped just before `wg.Done()`, six goroutines are
alive while five hold a slot. -/
theorem sched_live_goroutines :
    liveWorkers (exec (initSched ["a", "b", "c", "d", "e", "f"])
      (List.replicate 15 .main ++ List.replicate 3 (.worker 0) ++ List.replicate 3 .main)) = 6 ∧
    activeWorkers (exec (initSched ["a", "b", "c", "d", "e", "f"])
      (List.replicate 15 .main ++ List.replicate 3 (.worker 0) ++ List.replicate 3 .main)) = 5 := by
  decide

/-- A complete schedule for two targets ends with `wg.Wait()` returned and both
workers finished. -/
theorem sched_run_completes :
    exec (initSched ["a", "b"])
      (List.replicate 7 .main ++ List.replicate 4 (.worker 0) ++ List.replicate 4 (.worker 1)
        ++ [.main])
      = { pc := .done, pending := [], sem := 0, wg := 0,
          workers := [("a", .exited), ("b", .exited)] } := by
  decide

end TorScraper
